import Mathlib

/-!
Verification development for the netupi23 core (src/core/lib.rs):
the timer state engine and the session persistence/aggregation layer.

Modelling conventions for the shallow embedding:
- chrono DateTime values are modelled as Int timestamps in milliseconds
  since the epoch; chrono Duration values as Int milliseconds.
- uuid values are modelled as Nat; the fresh id produced by new_v4 is an
  explicit parameter of the operation that creates it.
- The two data files are modelled as Option of a file content; a content
  is either well formed (good, carrying the parsed value) or malformed
  (bad, anything serde_json fails to parse). Reads and writes of the
  file system are modelled as succeeding; malformed content is what makes
  a load fail, mirroring the Serialization error path of the source.
  Opaque error payloads (io Error, serde_json Error, the Config String)
  are elided.
- The tokio RwLock discipline is sequentialized: each operation is a
  function from the engine state to a result paired with the next state.
  The best-effort event channel (send failure silently ignored) has no
  bearing on any claim and is omitted.
-/

namespace Netupi

/-- TimerType from src/core/lib.rs. -/
inductive TimerType where
  | Stopwatch
  | PomodoroWork
  | PomodoroShortBreak
  | PomodoroLongBreak
  | CustomTimer
deriving DecidableEq, Repr

/-- TimerState from src/core/lib.rs. -/
inductive TimerState where
  | Idle
  | Running
  | Paused
  | Completed
deriving DecidableEq, Repr

/-- chrono Duration constructor minutes, in milliseconds. -/
def Duration.minutes (m : Int) : Int := m * 60 * 1000

/-- WorkSession from src/core/lib.rs; DateTime as Int, Duration as Int,
Uuid as Nat. -/
structure WorkSession where
  id : Nat
  session_type : TimerType
  start_time : Int
  end_time : Option Int
  duration : Int
  paused_duration : Int
  description : Option String
  tags : List String
deriving DecidableEq, Repr

/-- TimerConfig from src/core/lib.rs. -/
structure TimerConfig where
  pomodoro_work_duration : Int
  pomodoro_short_break_duration : Int
  pomodoro_long_break_duration : Int
  long_break_interval : Nat
  auto_start_breaks : Bool
  auto_start_work : Bool
deriving DecidableEq, Repr

/-- TimerData from src/core/lib.rs. -/
structure TimerData where
  timer_type : TimerType
  state : TimerState
  target_duration : Option Int
  elapsed : Int
  paused_time : Int
  start_time : Option Int
  pause_start : Option Int
deriving DecidableEq, Repr

/-- PersistenceError from src/core/lib.rs; payloads elided. -/
inductive PersistenceError where
  | Io
  | Serialization
  | Config
deriving DecidableEq, Repr

/-- Content of the sessions.json file: either a parseable list of
sessions or malformed data that serde_json rejects. -/
inductive SessionsFile where
  | good (sessions : List WorkSession)
  | bad
deriving DecidableEq, Repr

/-- Content of the config.json file. -/
inductive ConfigFile where
  | good (c : TimerConfig)
  | bad
deriving DecidableEq, Repr

/-- impl Default for TimerConfig. -/
def TimerConfig.default : TimerConfig :=
  { pomodoro_work_duration := Duration.minutes 25
    pomodoro_short_break_duration := Duration.minutes 5
    pomodoro_long_break_duration := Duration.minutes 15
    long_break_interval := 4
    auto_start_breaks := false
    auto_start_work := false }

/-- impl Default for TimerData. -/
def TimerData.default : TimerData :=
  { timer_type := TimerType.Stopwatch
    state := TimerState.Idle
    target_duration := none
    elapsed := 0
    paused_time := 0
    start_time := none
    pause_start := none }

/-- PersistenceManager load_sessions: a missing file yields an empty
collection, malformed content yields a Serialization error. -/
def loadSessions : Option SessionsFile → Except PersistenceError (List WorkSession)
  | none => Except.ok []
  | some (SessionsFile.good l) => Except.ok l
  | some SessionsFile.bad => Except.error PersistenceError.Serialization

/-- The body of save_session after the load: find the position of the
first record with the same id and assign, else push. Models
sessions.iter().position(..) followed by indexed assignment or push. -/
def upsertSession : List WorkSession → WorkSession → List WorkSession
  | [], s => [s]
  | a :: l, s => if a.id = s.id then s :: l else a :: upsertSession l s

/-- PersistenceManager save_session: load with unwrap_or_default (a failed
load is silently treated as an empty collection), upsert by id, rewrite
the whole file. Serialization of the list and the file write are modelled
as succeeding. -/
def saveSession (session : WorkSession) (file : Option SessionsFile) :
    Except PersistenceError Unit × Option SessionsFile :=
  let sessions := (loadSessions file).toOption.getD []
  (Except.ok (), some (SessionsFile.good (upsertSession sessions session)))

/-- PersistenceManager save_config. -/
def saveConfig (c : TimerConfig) (_file : Option ConfigFile) :
    Except PersistenceError Unit × Option ConfigFile :=
  (Except.ok (), some (ConfigFile.good c))

/-- PersistenceManager load_config: a missing file writes and returns the
default config; malformed content yields a Serialization error. -/
def loadConfig : Option ConfigFile → Except PersistenceError TimerConfig × Option ConfigFile
  | none => (Except.ok TimerConfig.default, some (ConfigFile.good TimerConfig.default))
  | some (ConfigFile.good c) => (Except.ok c, some (ConfigFile.good c))
  | some ConfigFile.bad => (Except.error PersistenceError.Serialization, some ConfigFile.bad)

/-- The mutable state owned by a TimerEngine, together with the sessions
file it persists into. -/
structure EngineState where
  data : TimerData
  config : TimerConfig
  sessionsFile : Option SessionsFile
  current_session : Option WorkSession
deriving DecidableEq, Repr

/-- The target_duration match in start_work_session. -/
def targetDurationFor (config : TimerConfig) : TimerType → Option Int
  | TimerType.PomodoroWork => some config.pomodoro_work_duration
  | TimerType.PomodoroShortBreak => some config.pomodoro_short_break_duration
  | TimerType.PomodoroLongBreak => some config.pomodoro_long_break_duration
  | _ => none

/-- TimerEngine start_work_session. The source calls Utc::now() twice,
once for the TimerData start_time and once for the WorkSession
start_time; both instants and the fresh uuid are explicit parameters. -/
def start_work_session (nowData nowSession : Int) (freshId : Nat)
    (timer_type : TimerType) (project_name : Option String)
    (description : Option String) (st : EngineState) :
    Except PersistenceError Unit × EngineState :=
  let tags : List String :=
    match project_name with
    | some project => [project]
    | none => []
  let session : WorkSession :=
    { id := freshId
      session_type := timer_type
      start_time := nowSession
      end_time := none
      duration := 0
      paused_duration := 0
      description := description
      tags := tags }
  (Except.ok (),
    { st with
      data :=
        { timer_type := timer_type
          state := TimerState.Running
          target_duration := targetDurationFor st.config timer_type
          elapsed := 0
          paused_time := 0
          start_time := some nowData
          pause_start := none }
      current_session := some session })

/-- TimerEngine start_timer delegates to start_work_session with no
project and no description. -/
def start_timer (nowData nowSession : Int) (freshId : Nat)
    (timer_type : TimerType) (st : EngineState) :
    Except PersistenceError Unit × EngineState :=
  start_work_session nowData nowSession freshId timer_type none none st

/-- TimerEngine get_current_state: when Running with a recorded
start_time, recompute and store elapsed as now minus start_time minus
paused_time; return a clone of the resulting data. -/
def get_current_state (now : Int) (st : EngineState) : TimerData × EngineState :=
  if st.data.state = TimerState.Running then
    match st.data.start_time with
    | some t0 =>
      let d := { st.data with elapsed := now - t0 - st.data.paused_time }
      (d, { st with data := d })
    | none => (st.data, st)
  else
    (st.data, st)

/-- TimerEngine stop_timer: set state to Idle; if an in-flight session
exists, finalize it with end_time now, duration from the stored elapsed
and paused_duration from paused_time, persist it, and reset the data to
default. On a persistence error the data reset is skipped by the early
return, matching the source. -/
def stop_timer (now : Int) (st : EngineState) :
    Except PersistenceError Unit × EngineState :=
  let data1 := { st.data with state := TimerState.Idle }
  match st.current_session with
  | some session =>
    let final : WorkSession :=
      { session with
        end_time := some now
        duration := data1.elapsed
        paused_duration := data1.paused_time }
    match saveSession final st.sessionsFile with
    | (Except.ok _, file1) =>
      (Except.ok (),
        { data := TimerData.default, config := st.config,
          sessionsFile := file1, current_session := none })
    | (Except.error e, file1) =>
      (Except.error e,
        { data := data1, config := st.config,
          sessionsFile := file1, current_session := none })
  | none =>
    (Except.ok (),
      { data := TimerData.default, config := st.config,
        sessionsFile := st.sessionsFile, current_session := none })

/-- The filter applied by get_projects in NetupiCore: stopwatch sessions
with a set end_time and a non-empty tag list. -/
def projFilter (s : WorkSession) : Bool :=
  s.session_type == TimerType.Stopwatch && s.end_time.isSome && !s.tags.isEmpty

/-- The first tag of a session, the project key; every use is guarded by
the non-empty check of projFilter or todayCond, mirroring tags[0]. -/
def firstTag (s : WorkSession) : String := s.tags.headD ""

/-- One update of the in-memory totals map: models
map.entry(project).or_insert(zero) += duration on the HashMap, realized
on an association list with distinct keys. -/
def bump : List (String × Int) → String → Int → List (String × Int)
  | [], p, d => [(p, d)]
  | (q, v) :: rest, p, d =>
    if q = p then (q, v + d) :: rest else (q, v) :: bump rest p d

/-- The accumulation loop of get_projects over the loaded sessions. -/
def projMap (sessions : List WorkSession) : List (String × Int) :=
  sessions.foldl
    (fun m s => if projFilter s then bump m (firstTag s) s.duration else m) []

/-- Comparison used to sort the collected project totals by name. -/
def byName (a b : String × Int) : Prop := a.1 ≤ b.1

instance : DecidableRel byName := fun a b => inferInstanceAs (Decidable (a.1 ≤ b.1))

instance : IsTotal (String × Int) byName := ⟨fun a b => le_total a.1 b.1⟩

instance : IsTrans (String × Int) byName := ⟨fun _ _ _ h1 h2 => le_trans h1 h2⟩

/-- NetupiCore get_projects on a loaded session list: accumulate totals
then sort by project name ascending (Vec sort_by on the name). -/
def getProjectsList (sessions : List WorkSession) : List (String × Int) :=
  List.insertionSort byName (projMap sessions)

/-- NetupiCore get_projects, from the file. -/
def getProjects (file : Option SessionsFile) :
    Except PersistenceError (List (String × Int)) :=
  match loadSessions file with
  | Except.error e => Except.error e
  | Except.ok sessions => Except.ok (getProjectsList sessions)

/-- Whether the end_time of a session falls on the given calendar day;
date_naive is modelled as flooring division of the millisecond timestamp
by the length of a day. -/
def endsOnDay (today : Int) (s : WorkSession) : Bool :=
  match s.end_time with
  | some e => Int.fdiv e 86400000 == today
  | none => false

/-- The condition of the get_today_summary loop: an end_time on the
current day, a stopwatch session, a non-empty tag list. -/
def todayCond (today : Int) (s : WorkSession) : Bool :=
  match s.end_time with
  | some e =>
    Int.fdiv e 86400000 == today
      && s.session_type == TimerType.Stopwatch && !s.tags.isEmpty
  | none => false

/-- NetupiCore get_today_summary on a loaded session list. -/
def todayMap (today : Int) (sessions : List WorkSession) : List (String × Int) :=
  sessions.foldl
    (fun m s => if todayCond today s then bump m (firstTag s) s.duration else m) []

/-- NetupiCore get_today_summary, from the file. -/
def getTodaySummary (today : Int) (file : Option SessionsFile) :
    Except PersistenceError (List (String × Int)) :=
  match loadSessions file with
  | Except.error e => Except.error e
  | Except.ok sessions => Except.ok (todayMap today sessions)

/-- The retain condition of delete_project_sessions, positively: a
completed stopwatch session whose first tag equals the project. -/
def delCond (project : String) (s : WorkSession) : Bool :=
  s.session_type == TimerType.Stopwatch && s.end_time.isSome
    && !s.tags.isEmpty && firstTag s == project

/-- NetupiCore delete_project_sessions: load, retain the records not
matching delCond, and rewrite the file only when at least one record was
removed; return the number removed. -/
def delete_project_sessions (project : String) (file : Option SessionsFile) :
    Except PersistenceError Nat × Option SessionsFile :=
  match loadSessions file with
  | Except.error e => (Except.error e, file)
  | Except.ok sessions =>
    let kept := sessions.filter (fun s => ! delCond project s)
    let deleted := sessions.length - kept.length
    if 0 < deleted then
      (Except.ok deleted, some (SessionsFile.good kept))
    else
      (Except.ok deleted, file)

/-- First value stored under a key in a totals association list; on the
lists built by bump from an empty accumulator, keys are distinct, so this
is the HashMap lookup. -/
def lookupP : List (String × Int) → String → Option Int
  | [], _ => none
  | (q, v) :: rest, p => if q = p then some v else lookupP rest p

/-- Whether a session is grouped under the given project: the grouping
filter together with a first tag equal to the project. -/
def matchP (p : String) (s : WorkSession) : Bool :=
  projFilter s && (firstTag s == p)

/-- Modelled from the spec words, for comparison with the HashMap
accumulation of the source: the sum of duration over the stopwatch
sessions with a set end_time and a non-empty tag list whose first tag is
the given project. -/
def specTotal (sessions : List WorkSession) (p : String) : Int :=
  ((sessions.filter (matchP p)).map (fun s => s.duration)).sum

/-- States of a TimerEngine reachable from construction (TimerEngine new
leaves the data at default and no in-flight session, over any store and
any loaded config) by any sequence of start_work_session,
get_current_state and stop_timer calls. -/
inductive Reachable : EngineState → Prop where
  | init (config : TimerConfig) (file : Option SessionsFile) :
      Reachable { data := TimerData.default, config := config,
                  sessionsFile := file, current_session := none }
  | step_start (nd ns : Int) (fid : Nat) (tt : TimerType)
      (pn ds : Option String) (st : EngineState) (h : Reachable st) :
      Reachable (start_work_session nd ns fid tt pn ds st).2
  | step_read (now : Int) (st : EngineState) (h : Reachable st) :
      Reachable (get_current_state now st).2
  | step_stop (now : Int) (st : EngineState) (h : Reachable st) :
      Reachable (stop_timer now st).2

/-- The engine invariant of claim C10: only Idle and Running occur,
Running coincides with the presence of an in-flight session and of a
recorded start_time, and an Idle engine carries the default TimerData. -/
def EngineInv (st : EngineState) : Prop :=
  (st.data.state = TimerState.Idle ∨ st.data.state = TimerState.Running)
  ∧ (st.data.state = TimerState.Running ↔ st.current_session.isSome = true)
  ∧ (st.current_session.isSome = true ↔ st.data.start_time.isSome = true)
  ∧ (st.data.state = TimerState.Idle → st.data = TimerData.default)

/-- A fresh engine over a fresh store, as produced by NetupiCore new. -/
def engine0 : EngineState :=
  { data := TimerData.default, config := TimerConfig.default,
    sessionsFile := none, current_session := none }

/-- The in-flight session created by starting a stopwatch for project X
at instant 0 with fresh id 7. -/
def sessAfterStart : WorkSession :=
  { id := 7, session_type := TimerType.Stopwatch, start_time := 0,
    end_time := none, duration := 0, paused_duration := 0,
    description := none, tags := ["X"] }

/-- The engine right after that start call. -/
def stAfterStart : EngineState :=
  (start_work_session 0 0 7 TimerType.Stopwatch (some "X") none engine0).2

/-- The record that stop_timer persists at instant 5 from stAfterStart. -/
def storedAtStop : WorkSession :=
  { id := 7, session_type := TimerType.Stopwatch, start_time := 0,
    end_time := some 5, duration := 0, paused_duration := 0,
    description := none, tags := ["X"] }

/-- Concrete sessions sharing id 1, used against the upsert claim. -/
def wsA : WorkSession :=
  { id := 1, session_type := TimerType.Stopwatch, start_time := 0,
    end_time := none, duration := 0, paused_duration := 0,
    description := none, tags := [] }

/-- Second stored record with the same id 1 as wsA. -/
def wsB : WorkSession :=
  { id := 1, session_type := TimerType.Stopwatch, start_time := 1,
    end_time := none, duration := 0, paused_duration := 0,
    description := none, tags := [] }

/-- The payload saved into a store already holding wsA and wsB. -/
def wsC : WorkSession :=
  { id := 1, session_type := TimerType.Stopwatch, start_time := 2,
    end_time := some 9, duration := 5, paused_duration := 0,
    description := none, tags := ["X"] }

/-- A completed non-stopwatch session whose first tag is X. -/
def sPomo : WorkSession :=
  { id := 3, session_type := TimerType.PomodoroWork, start_time := 0,
    end_time := some 4, duration := 4, paused_duration := 0,
    description := none, tags := ["X"] }

end Netupi

namespace Netupi

/-- Every stop_timer call in the model succeeds and leaves the default
data, no in-flight session and the same config, for some sessions file. -/
theorem stop_timer_ok (n : Int) (st : EngineState) :
    ∃ f, stop_timer n st =
      (Except.ok (), { data := TimerData.default, config := st.config,
                       sessionsFile := f, current_session := none }) := by
  cases hcs : st.current_session with
  | none => exact ⟨st.sessionsFile, by simp [stop_timer, hcs]⟩
  | some sess =>
    exact ⟨some (SessionsFile.good (upsertSession
        ((loadSessions st.sessionsFile).toOption.getD [])
        { sess with
          end_time := some n
          duration := st.data.elapsed
          paused_duration := st.data.paused_time })),
      by simp [stop_timer, hcs, saveSession]⟩

/-- C6: start_work_session never writes to the Record Store: the sessions
file is unchanged, the call returns success, and any previous in-flight
session is replaced by the newly created record without being persisted;
no implicit stop is performed. -/
theorem start_never_persists (nd ns : Int) (fid : Nat) (tt : TimerType)
    (pn ds : Option String) (st : EngineState) :
    (start_work_session nd ns fid tt pn ds st).1 = Except.ok ()
    ∧ ((start_work_session nd ns fid tt pn ds st).2).sessionsFile = st.sessionsFile
    ∧ ((start_work_session nd ns fid tt pn ds st).2).config = st.config
    ∧ ((start_work_session nd ns fid tt pn ds st).2).current_session =
        some { id := fid, session_type := tt, start_time := ns,
               end_time := none, duration := 0, paused_duration := 0,
               description := ds,
               tags := match pn with
                       | some project => [project]
                       | none => [] }
    ∧ ((start_work_session nd ns fid tt pn ds st).2).data.state = TimerState.Running :=
  ⟨rfl, rfl, rfl, rfl, rfl⟩

/-- C8: on a fresh store, load_sessions returns the empty collection
without error, and load_config returns the documented default
configuration field for field and persists it, so the config file exists
after the first load. -/
theorem fresh_store_defaults :
    loadSessions none = Except.ok []
    ∧ loadConfig none =
        (Except.ok TimerConfig.default, some (ConfigFile.good TimerConfig.default))
    ∧ TimerConfig.default.pomodoro_work_duration = Duration.minutes 25
    ∧ TimerConfig.default.pomodoro_short_break_duration = Duration.minutes 5
    ∧ TimerConfig.default.pomodoro_long_break_duration = Duration.minutes 15
    ∧ TimerConfig.default.long_break_interval = 4
    ∧ TimerConfig.default.auto_start_breaks = false
    ∧ TimerConfig.default.auto_start_work = false
    ∧ (loadConfig none).2 ≠ none := by
  refine ⟨rfl, rfl, rfl, rfl, rfl, rfl, rfl, rfl, ?_⟩
  simp [loadConfig]

/-- C2: get_current_state called while Running with the start_time
recorded by start recomputes and stores elapsed as now minus start_time
minus paused_time and returns a snapshot of the resulting TimerData;
moreover a read outside Running returns the state untouched for every
clock value, and start and stop only ever write the constant zero into
elapsed, so wall-clock time reaches the stored elapsed only through this
recomputation-on-read. -/
theorem read_recomputes_elapsed (now : Int) (st : EngineState) (t0 : Int)
    (h1 : st.data.state = TimerState.Running)
    (h2 : st.data.start_time = some t0) :
    get_current_state now st =
      ({ st.data with elapsed := now - t0 - st.data.paused_time },
        { st with data :=
            { st.data with elapsed := now - t0 - st.data.paused_time } })
    ∧ (∀ (n : Int) (st2 : EngineState), st2.data.state ≠ TimerState.Running →
        get_current_state n st2 = (st2.data, st2))
    ∧ (∀ (nd ns : Int) (fid : Nat) (tt : TimerType) (pn ds : Option String)
        (st2 : EngineState),
        ((start_work_session nd ns fid tt pn ds st2).2).data.elapsed = 0)
    ∧ (∀ (n : Int) (st2 : EngineState), ((stop_timer n st2).2).data.elapsed = 0) := by
  refine ⟨by simp [get_current_state, h1, h2], ?_, ?_, ?_⟩
  · intro n st2 hne
    simp [get_current_state, hne]
  · intro nd ns fid tt pn ds st2
    rfl
  · intro n st2
    obtain ⟨f, hf⟩ := stop_timer_ok n st2
    simp [hf, TimerData.default]

/-- Closed instance of read_recomputes_elapsed at the state reached by a
concrete start. -/
theorem read_recomputes_elapsed_witness :
    get_current_state 3 stAfterStart =
      ({ stAfterStart.data with
          elapsed := 3 - 0 - stAfterStart.data.paused_time },
        { stAfterStart with data :=
            { stAfterStart.data with
                elapsed := 3 - 0 - stAfterStart.data.paused_time } }) :=
  (read_recomputes_elapsed 3 stAfterStart 0 rfl rfl).1

/-- C9: stop_timer called with state Idle and no in-flight session
returns success, resets the TimerData to its default value and leaves the
persisted collection unchanged; moreover a second stop after any
successful stop returns the state unchanged. -/
theorem stop_idle_noop (now : Int) (st : EngineState)
    (_h1 : st.data.state = TimerState.Idle)
    (h2 : st.current_session = none) :
    stop_timer now st =
      (Except.ok (), { st with data := TimerData.default, current_session := none })
    ∧ ((stop_timer now st).2).sessionsFile = st.sessionsFile
    ∧ (∀ (n1 n2 : Int) (st2 st3 : EngineState),
        stop_timer n1 st2 = (Except.ok (), st3) →
        stop_timer n2 st3 = (Except.ok (), st3)) := by
  refine ⟨by simp [stop_timer, h2], by simp [stop_timer, h2], ?_⟩
  intro n1 n2 st2 st3 hstep
  obtain ⟨f, hf⟩ := stop_timer_ok n1 st2
  rw [hf] at hstep
  have h3 : st3 = { data := TimerData.default, config := st2.config,
                    sessionsFile := f, current_session := none } :=
    ((Prod.ext_iff.mp hstep).2).symm
  rw [h3]
  simp [stop_timer]

/-- Closed instance of stop_idle_noop on the fresh engine. -/
theorem stop_idle_noop_witness :
    stop_timer 5 engine0 =
      (Except.ok (),
        { engine0 with
          data := TimerData.default
          current_session := none }) :=
  (stop_idle_noop 5 engine0 rfl rfl).1

/-- C10: the invariant EngineInv holds in every engine state reachable
from construction by start_work_session, get_current_state and
stop_timer. -/
theorem engine_invariant (st : EngineState) (h : Reachable st) : EngineInv st := by
  induction h with
  | init config file =>
    exact ⟨Or.inl rfl, by simp [TimerData.default],
      by simp [TimerData.default], fun _ => rfl⟩
  | step_start nd ns fid tt pn ds st h ih =>
    refine ⟨Or.inr rfl, ?_, ?_, ?_⟩ <;> simp [start_work_session, EngineInv]
  | step_read now st h ih =>
    by_cases hR : st.data.state = TimerState.Running
    · cases hs : st.data.start_time with
      | none => simpa [get_current_state, hR, hs] using ih
      | some t0 =>
        obtain ⟨i1, i2, i3, i4⟩ := ih
        refine ⟨?_, ?_, ?_, ?_⟩ <;>
          simp [get_current_state, hR, hs] <;>
          simp [hR, hs] at i2 i3 ⊢ <;> tauto
    · simpa [get_current_state, hR] using ih
  | step_stop now st h ih =>
    obtain ⟨f, hf⟩ := stop_timer_ok now st
    rw [hf]
    exact ⟨Or.inl rfl, by simp [TimerData.default],
      by simp [TimerData.default], fun _ => rfl⟩

/-- Closed instance of engine_invariant at the initial state. -/
theorem engine_invariant_witness : EngineInv engine0 :=
  engine_invariant engine0 (Reachable.init TimerConfig.default none)

/-- C1 is false as stated: starting at instant 0 and stopping at instant
5 with no intervening read persists a record whose duration is the stale
stored elapsed 0, while end_time minus start_time minus paused_duration
is 5. -/
theorem stop_duration_not_clock_difference :
    ((stop_timer 5 stAfterStart).2).sessionsFile
      = some (SessionsFile.good [storedAtStop])
    ∧ storedAtStop.duration ≠
        storedAtStop.end_time.getD 0 - storedAtStop.start_time
          - storedAtStop.paused_duration := by
  refine ⟨rfl, by decide⟩

/-- C1 (amended): when an in-flight session exists at stop, stop_timer
succeeds and persists it with end_time set to the stop instant, duration
equal to the elapsed stored in the engine at the moment of stop, and
paused_duration equal to the engine paused_time at the moment of stop;
stop_timer does not recompute elapsed from the clock. -/
theorem stop_persists_elapsed_and_paused (now : Int) (st : EngineState)
    (sess : WorkSession) (h : st.current_session = some sess) :
    stop_timer now st =
      (Except.ok (),
        { data := TimerData.default
          config := st.config
          sessionsFile := some (SessionsFile.good (upsertSession
            ((loadSessions st.sessionsFile).toOption.getD [])
            { sess with
              end_time := some now
              duration := st.data.elapsed
              paused_duration := st.data.paused_time }))
          current_session := none })
    ∧ ({ sess with
          end_time := some now
          duration := st.data.elapsed
          paused_duration := st.data.paused_time } : WorkSession).paused_duration
        = st.data.paused_time
    ∧ ({ sess with
          end_time := some now
          duration := st.data.elapsed
          paused_duration := st.data.paused_time } : WorkSession).duration
        = st.data.elapsed := by
  exact ⟨by simp [stop_timer, h, saveSession], rfl, rfl⟩

/-- Closed instance of stop_persists_elapsed_and_paused after a concrete
start. -/
theorem stop_persists_elapsed_and_paused_witness :
    stop_timer 5 stAfterStart =
      (Except.ok (),
        { data := TimerData.default
          config := stAfterStart.config
          sessionsFile := some (SessionsFile.good (upsertSession
            ((loadSessions stAfterStart.sessionsFile).toOption.getD [])
            { sessAfterStart with
              end_time := some 5
              duration := stAfterStart.data.elapsed
              paused_duration := stAfterStart.data.paused_time }))
          current_session := none }) :=
  (stop_persists_elapsed_and_paused 5 stAfterStart sessAfterStart rfl).1

/-- Records whose id differs from the saved id are untouched by the
upsert, in content and in relative order. -/
theorem upsert_filter_ne (l : List WorkSession) (s : WorkSession) :
    (upsertSession l s).filter (fun r => !(r.id == s.id))
      = l.filter (fun r => !(r.id == s.id)) := by
  induction l with
  | nil => simp [upsertSession]
  | cons a l ih =>
    by_cases h : a.id = s.id
    · simp [upsertSession, h]
    · simp [upsertSession, h, ih]

/-- Under distinct stored ids, the upsert leaves exactly one record with
the saved id, namely the saved payload. -/
theorem upsert_filter_eq (l : List WorkSession) (s : WorkSession)
    (h : (l.map (fun r => r.id)).Nodup) :
    (upsertSession l s).filter (fun r => r.id == s.id) = [s] := by
  induction l with
  | nil => simp [upsertSession]
  | cons a l ih =>
    rw [List.map_cons, List.nodup_cons] at h
    obtain ⟨ha, hl⟩ := h
    by_cases hid : a.id = s.id
    · have hnone : ∀ r ∈ l, ¬(r.id == s.id) = true := by
        intro r hr hrid
        rw [beq_iff_eq] at hrid
        exact ha (hid ▸ hrid ▸ List.mem_map_of_mem (fun r => r.id) hr)
      simp [upsertSession, hid, List.filter_eq_nil_iff.mpr hnone]
    · simp [upsertSession, hid, ih hl]

/-- Every id present after the upsert was present before or is the saved
id. -/
theorem upsert_ids_sub (l : List WorkSession) (s : WorkSession) :
    ∀ x ∈ (upsertSession l s).map (fun r => r.id),
      x ∈ l.map (fun r => r.id) ∨ x = s.id := by
  induction l with
  | nil => simp [upsertSession]
  | cons a l ih =>
    by_cases hid : a.id = s.id
    · intro x hx
      simp [upsertSession, hid] at hx
      rcases hx with hx | hx
      · exact Or.inr hx
      · exact Or.inl (by simp [hx, List.mem_map_of_mem])
    · intro x hx
      simp [upsertSession, hid] at hx
      rcases hx with hx | hx
      · exact Or.inl (by simp [hx])
      · rcases ih x (by simpa using hx) with h1 | h1
        · exact Or.inl (by rw [List.map_cons]; exact List.mem_cons_of_mem _ h1)
        · exact Or.inr h1

/-- The upsert preserves distinctness of the stored ids. -/
theorem upsert_ids_nodup (l : List WorkSession) (s : WorkSession)
    (h : (l.map (fun r => r.id)).Nodup) :
    ((upsertSession l s).map (fun r => r.id)).Nodup := by
  induction l with
  | nil => simp [upsertSession]
  | cons a l ih =>
    rw [List.map_cons, List.nodup_cons] at h
    obtain ⟨ha, hl⟩ := h
    by_cases hid : a.id = s.id
    · simp only [upsertSession, if_pos hid, List.map_cons, List.nodup_cons]
      exact ⟨hid ▸ ha, hl⟩
    · simp only [upsertSession, if_neg hid, List.map_cons, List.nodup_cons]
      refine ⟨?_, ih hl⟩
      intro hmem
      rcases upsert_ids_sub l s a.id hmem with h1 | h1
      · exact ha h1
      · exact hid h1

/-- C3 is false over arbitrary prior collections: with two stored records
already sharing id 1, saving a third record with id 1 replaces only the
first and leaves two records with that id. -/
theorem upsert_duplicate_ids_counterexample :
    saveSession wsC (some (SessionsFile.good [wsA, wsB]))
      = (Except.ok (), some (SessionsFile.good [wsC, wsB]))
    ∧ (upsertSession [wsA, wsB] wsC).filter (fun r => r.id == wsC.id)
      = [wsC, wsB]
    ∧ [wsC, wsB] ≠ [wsC] := by
  refine ⟨rfl, rfl, by decide⟩

/-- C3 (amended): provided the prior stored collection has pairwise
distinct ids, an invariant save_session itself preserves, save_session
upserts by id: afterwards exactly one record carries the saved id and
equals the saved payload, records with other ids are unchanged in content
and order, and a second save with the same id again leaves exactly one
record, holding the second payload. -/
theorem save_session_upserts_by_id (sessions : List WorkSession)
    (s : WorkSession) (h : (sessions.map (fun r => r.id)).Nodup) :
    saveSession s (some (SessionsFile.good sessions))
      = (Except.ok (), some (SessionsFile.good (upsertSession sessions s)))
    ∧ (upsertSession sessions s).filter (fun r => r.id == s.id) = [s]
    ∧ (upsertSession sessions s).filter (fun r => !(r.id == s.id))
        = sessions.filter (fun r => !(r.id == s.id))
    ∧ ((upsertSession sessions s).map (fun r => r.id)).Nodup
    ∧ (∀ s2 : WorkSession, s2.id = s.id →
        (upsertSession (upsertSession sessions s) s2).filter
          (fun r => r.id == s2.id) = [s2]) := by
  refine ⟨rfl, upsert_filter_eq sessions s h, upsert_filter_ne sessions s,
    upsert_ids_nodup sessions s h, ?_⟩
  intro s2 _
  exact upsert_filter_eq _ s2 (upsert_ids_nodup sessions s h)

/-- Closed instance of save_session_upserts_by_id on the empty store. -/
theorem save_session_upserts_by_id_witness :
    (upsertSession [] wsC).filter (fun r => r.id == wsC.id) = [wsC] :=
  (save_session_upserts_by_id [] wsC (by simp)).2.1

/-- C5 is false as stated: save_session over a malformed store succeeds
and rewrites the store as if it had been empty, instead of returning a
Serialization error. -/
theorem save_session_swallows_load_error :
    saveSession wsC (some SessionsFile.bad)
      = (Except.ok (), some (SessionsFile.good [wsC]))
    ∧ (saveSession wsC (some SessionsFile.bad)).1
      ≠ Except.error PersistenceError.Serialization :=
  ⟨rfl, fun hh => Except.noConfusion hh⟩

/-- C5 (amended): load_sessions and load_config surface malformed stored
content as a typed Serialization error and recover silently only in the
two missing-file cases, while save_session does not propagate a failed
load: unwrap_or_default silently treats an unloadable store as empty and
the save overwrites it with just the saved session. -/
theorem persistence_error_propagation :
    loadSessions (some SessionsFile.bad)
      = Except.error PersistenceError.Serialization
    ∧ loadSessions none = Except.ok []
    ∧ (loadConfig (some ConfigFile.bad)).1
      = Except.error PersistenceError.Serialization
    ∧ loadConfig none
      = (Except.ok TimerConfig.default,
          some (ConfigFile.good TimerConfig.default))
    ∧ (∀ s : WorkSession, saveSession s (some SessionsFile.bad)
        = (Except.ok (), some (SessionsFile.good [s]))) :=
  ⟨rfl, rfl, rfl, rfl, fun _ => rfl⟩

/-- Splitting a list by a Bool predicate splits its length. -/
theorem length_filter_sub (p : WorkSession → Bool) (l : List WorkSession) :
    l.length - (l.filter (fun s => ! p s)).length = (l.filter p).length := by
  induction l with
  | nil => simp
  | cons a l ih =>
    have hle := List.length_filter_le (fun s => ! p s) l
    by_cases h : p a <;> simp [List.filter_cons, h] <;> omega

/-- Evaluation of delete_project_sessions on a well formed store: the
result counts the records matching delCond and the store retains exactly
the others. -/
theorem delete_good_eq (project : String) (l : List WorkSession) :
    delete_project_sessions project (some (SessionsFile.good l)) =
      (Except.ok ((l.filter (delCond project)).length),
        some (SessionsFile.good (l.filter (fun s => ! delCond project s)))) := by
  simp only [delete_project_sessions, loadSessions]
  rw [length_filter_sub (delCond project) l]
  by_cases h : 0 < (l.filter (delCond project)).length
  · simp [h]
  · have h0 : (l.filter (delCond project)).length = 0 := by omega
    have hnil : l.filter (delCond project) = [] := List.length_eq_zero.mp h0
    have hall : ∀ a ∈ l, ¬ delCond project a = true := List.filter_eq_nil_iff.mp hnil
    have hself : l.filter (fun s => ! delCond project s) = l := by
      rw [List.filter_eq_self]
      intro a ha
      simp [hall a ha]
    simp [h, h0, hself]

/-- C4 is false as stated: a completed non-stopwatch session whose first
tag is the project is not removed; the call returns 0 and leaves the
store unchanged. -/
theorem delete_ignores_non_stopwatch :
    delete_project_sessions "X" (some (SessionsFile.good [sPomo]))
      = (Except.ok 0, some (SessionsFile.good [sPomo]))
    ∧ sPomo.tags.head? = some "X"
    ∧ sPomo.end_time.isSome = true :=
  ⟨rfl, rfl, rfl⟩

/-- C4 (amended): delete_project_sessions removes exactly the stored
sessions that are stopwatch sessions with a set end_time whose first tag
equals the project, returns their count, leaves the others unchanged,
does not rewrite the store when the count is 0, and a second identical
call returns 0 with the store unchanged. -/
theorem delete_project_sessions_spec (project : String) :
    (∀ l : List WorkSession,
      delete_project_sessions project (some (SessionsFile.good l)) =
        (Except.ok ((l.filter (delCond project)).length),
          some (SessionsFile.good (l.filter (fun s => ! delCond project s)))))
    ∧ (∀ file : Option SessionsFile,
        (delete_project_sessions project file).1 = Except.ok 0 →
        (delete_project_sessions project file).2 = file)
    ∧ (∀ (file : Option SessionsFile) (r : Nat) (file2 : Option SessionsFile),
        delete_project_sessions project file = (Except.ok r, file2) →
        delete_project_sessions project file2 = (Except.ok 0, file2)) := by
  refine ⟨delete_good_eq project, ?_, ?_⟩
  · intro file hf
    match file with
    | none => rfl
    | some SessionsFile.bad => exact absurd hf (by simp [delete_project_sessions, loadSessions])
    | some (SessionsFile.good l) =>
      rw [delete_good_eq project l] at hf
      have h0 : (l.filter (delCond project)).length = 0 := by simpa using hf
      have hnil : l.filter (delCond project) = [] := List.length_eq_zero.mp h0
      have hall : ∀ a ∈ l, ¬ delCond project a = true := List.filter_eq_nil_iff.mp hnil
      have hself : l.filter (fun s => ! delCond project s) = l := by
        rw [List.filter_eq_self]
        intro a ha
        simp [hall a ha]
      rw [delete_good_eq project l, hself]
  · intro file r file2 hstep
    match file with
    | none =>
      have h1 : delete_project_sessions project none = (Except.ok 0, none) := rfl
      rw [h1] at hstep
      injection hstep with _he hf
      subst hf
      exact h1
    | some SessionsFile.bad =>
      have h1 : delete_project_sessions project (some SessionsFile.bad)
          = (Except.error PersistenceError.Serialization, some SessionsFile.bad) := rfl
      rw [h1] at hstep
      injection hstep with he _hf
      exact Except.noConfusion he
    | some (SessionsFile.good l) =>
      rw [delete_good_eq project l] at hstep
      injection hstep with _he hf
      subst hf
      rw [delete_good_eq project]
      have e1 : (l.filter (fun s => ! delCond project s)).filter (delCond project)
          = [] := by
        rw [List.filter_filter]
        have : ∀ a ∈ l, ¬(delCond project a && ! delCond project a) = true := by
          intro a _
          cases delCond project a <;> simp
        exact List.filter_eq_nil_iff.mpr this
      have e2 : (l.filter (fun s => ! delCond project s)).filter
            (fun s => ! delCond project s)
          = l.filter (fun s => ! delCond project s) := by
        rw [List.filter_filter]
        congr 1
        funext a
        cases delCond project a <;> simp
      rw [e1, e2]
      rfl

/-- Closed instance of delete_project_sessions_spec: the second call on
the store left by a call that removed nothing rewrites nothing. -/
theorem delete_project_sessions_spec_witness :
    (delete_project_sessions "X" (some (SessionsFile.good [sPomo]))).2
      = some (SessionsFile.good [sPomo]) :=
  (delete_project_sessions_spec "X").2.1 (some (SessionsFile.good [sPomo])) (by rfl)

/-- Looking a key up after a bump: the bumped key gains the added
duration over its previous total, defaulting to zero; other keys are
unaffected. -/
theorem lookupP_bump (m : List (String × Int)) (q : String) (d : Int) (p : String) :
    lookupP (bump m q d) p =
      if q = p then some ((lookupP m p).getD 0 + d) else lookupP m p := by
  induction m with
  | nil => by_cases h : q = p <;> simp [bump, lookupP, h]
  | cons a m ih =>
    obtain ⟨b, v⟩ := a
    by_cases hbq : b = q
    · subst hbq
      simp only [bump, if_pos rfl]
      by_cases hbp : b = p
      · subst hbp
        simp [lookupP]
      · simp [lookupP, hbp]
    · simp only [bump, if_neg hbq]
      by_cases hbp : b = p
      · subst hbp
        have hqb : ¬ q = b := fun hh => hbq hh.symm
        simp [lookupP, hqb]
      · have hstep : lookupP ((b, v) :: bump m q d) p = lookupP (bump m q d) p := by
          simp [lookupP, hbp]
        rw [hstep, ih]
        by_cases hqp : q = p <;> simp [hqp, lookupP, hbp]

/-- Every key present after a bump was present before or is the bumped
key. -/
theorem keys_bump_mem (m : List (String × Int)) (q : String) (d : Int) :
    ∀ x ∈ (bump m q d).map Prod.fst, x ∈ m.map Prod.fst ∨ x = q := by
  induction m with
  | nil => simp [bump]
  | cons a m ih =>
    obtain ⟨b, v⟩ := a
    by_cases hbq : b = q
    · subst hbq
      intro x hx
      simp only [bump, if_pos rfl] at hx
      exact Or.inl hx
    · intro x hx
      simp only [bump, if_neg hbq, List.map_cons, List.mem_cons] at hx
      rcases hx with hx | hx
      · exact Or.inl (by simp [hx])
      · rcases ih x hx with h1 | h1
        · exact Or.inl (by rw [List.map_cons]; exact List.mem_cons_of_mem _ h1)
        · exact Or.inr h1

/-- A bump preserves distinctness of the keys. -/
theorem keys_bump_nodup (m : List (String × Int)) (q : String) (d : Int)
    (h : (m.map Prod.fst).Nodup) : ((bump m q d).map Prod.fst).Nodup := by
  induction m with
  | nil => simp [bump]
  | cons a m ih =>
    obtain ⟨b, v⟩ := a
    rw [List.map_cons, List.nodup_cons] at h
    obtain ⟨hb, hm⟩ := h
    by_cases hbq : b = q
    · subst hbq
      have hb2 : bump ((b, v) :: m) b d = (b, v + d) :: m := by simp [bump]
      rw [hb2, List.map_cons, List.nodup_cons]
      exact ⟨hb, hm⟩
    · simp only [bump, if_neg hbq, List.map_cons, List.nodup_cons]
      refine ⟨?_, ih hm⟩
      intro hmem
      rcases keys_bump_mem m q d b hmem with h1 | h1
      · exact hb h1
      · exact hbq h1

/-- On an association list with distinct keys, membership of a pair is
lookup of its key. -/
theorem mem_iff_lookupP (m : List (String × Int)) (p : String) (d : Int)
    (h : (m.map Prod.fst).Nodup) : (p, d) ∈ m ↔ lookupP m p = some d := by
  induction m with
  | nil => simp [lookupP]
  | cons a m ih =>
    obtain ⟨q, v⟩ := a
    rw [List.map_cons, List.nodup_cons] at h
    obtain ⟨hq, hm⟩ := h
    by_cases hqp : q = p
    · subst hqp
      rw [show lookupP ((q, v) :: m) q = some v from by simp [lookupP],
        List.mem_cons]
      constructor
      · rintro (he | hmem)
        · rw [Prod.mk.injEq] at he
          rw [he.2]
        · exact absurd (List.mem_map_of_mem Prod.fst hmem) hq
      · intro he
        rw [Option.some.injEq] at he
        exact Or.inl (by rw [he])
    · simp only [lookupP, if_neg hqp, List.mem_cons]
      rw [← ih hm]
      constructor
      · rintro (he | hmem)
        · exact absurd (congrArg Prod.fst he).symm hqp
        · exact hmem
      · exact fun hmem => Or.inr hmem

/-- The keys of the accumulated totals map stay distinct along the
get_projects fold. -/
theorem projFold_keys_nodup (l : List WorkSession) (m : List (String × Int))
    (h : (m.map Prod.fst).Nodup) :
    ((l.foldl (fun m s =>
        if projFilter s then bump m (firstTag s) s.duration else m) m).map
      Prod.fst).Nodup := by
  induction l generalizing m with
  | nil => simpa using h
  | cons s l ih =>
    simp only [List.foldl_cons]
    by_cases hf : projFilter s
    · rw [if_pos hf]
      exact ih _ (keys_bump_nodup m (firstTag s) s.duration h)
    · rw [if_neg hf]
      exact ih m h

/-- The heart of the aggregation claim: looking a project up in the
totals accumulated by the get_projects loop yields the sum of the
durations of its matching sessions, whenever any session matches. -/
theorem lookupP_projFold (p : String) (l : List WorkSession)
    (m : List (String × Int)) :
    lookupP (l.foldl (fun m s =>
        if projFilter s then bump m (firstTag s) s.duration else m) m) p
      = match lookupP m p with
        | some v => some (v + specTotal l p)
        | none =>
          if l.any (matchP p) then some (specTotal l p) else none := by
  induction l generalizing m with
  | nil => cases hm : lookupP m p <;> simp [specTotal, hm]
  | cons s l ih =>
    simp only [List.foldl_cons]
    by_cases hf : projFilter s
    · by_cases hp : firstTag s = p
      · rw [if_pos hf, ih, lookupP_bump, if_pos hp]
        have hTot : specTotal (s :: l) p = s.duration + specTotal l p := by
          simp [specTotal, matchP, List.filter_cons, hf, hp]
        have hAny : (s :: l).any (matchP p) = true := by
          simp [matchP, hf, hp]
        cases hm : lookupP m p with
        | some v => simp [hm, hTot, add_assoc]
        | none => simp [hm, hTot, hAny]
      · rw [if_pos hf, ih, lookupP_bump, if_neg hp]
        have hTot : specTotal (s :: l) p = specTotal l p := by
          simp [specTotal, matchP, List.filter_cons, hp]
        have hAny : (s :: l).any (matchP p) = l.any (matchP p) := by
          simp [matchP, hp]
        rw [hTot, hAny]
    · rw [if_neg hf, ih]
      have hTot : specTotal (s :: l) p = specTotal l p := by
        simp [specTotal, matchP, List.filter_cons, hf]
      have hAny : (s :: l).any (matchP p) = l.any (matchP p) := by
        simp [matchP, hf]
      rw [hTot, hAny]

/-- The accumulated totals map holds exactly the projects with a matching
session, each mapped to its duration sum. -/
theorem mem_projMap_iff (l : List WorkSession) (p : String) (d : Int) :
    (p, d) ∈ projMap l ↔ (l.any (matchP p) = true ∧ d = specTotal l p) := by
  rw [projMap, mem_iff_lookupP _ p d (projFold_keys_nodup l [] (by simp)),
    lookupP_projFold p l []]
  simp only [lookupP]
  cases hany : l.any (matchP p) <;> simp [hany, eq_comm]

/-- The get_today_summary fold is the get_projects fold over the sessions
whose end_time falls on the given day. -/
theorem todayFold_eq (today : Int) (l : List WorkSession)
    (m : List (String × Int)) :
    l.foldl (fun m s =>
        if todayCond today s then bump m (firstTag s) s.duration else m) m
      = (l.filter (endsOnDay today)).foldl (fun m s =>
          if projFilter s then bump m (firstTag s) s.duration else m) m := by
  induction l generalizing m with
  | nil => rfl
  | cons s l ih =>
    have hcond : todayCond today s = (endsOnDay today s && projFilter s) := by
      unfold todayCond endsOnDay projFilter
      cases he : s.end_time with
      | none => simp
      | some e =>
        cases hD : (Int.fdiv e 86400000 == today) <;>
          cases hA : (s.session_type == TimerType.Stopwatch) <;>
            cases hC : s.tags.isEmpty <;> simp [hD, hA, hC]
    rw [List.foldl_cons, List.filter_cons, hcond]
    cases he2 : endsOnDay today s
    · simp only [Bool.false_and, if_false, Bool.false_eq_true, if_neg]
      exact ih m
    · simp only [Bool.true_and, if_true, List.foldl_cons]
      exact ih _

/-- C7: get_projects computes, for every stored collection, the duration
sums grouped by the first tag over exactly the stopwatch sessions with a
set end_time and a non-empty tag list, sorted by project name ascending;
get_today_summary computes the same grouping restricted to the sessions
whose end_time falls on the current calendar day; and a session with no
tags contributes to neither. -/
theorem aggregation_spec (sessions : List WorkSession) (today : Int) :
    getProjects (some (SessionsFile.good sessions))
      = Except.ok (getProjectsList sessions)
    ∧ getTodaySummary today (some (SessionsFile.good sessions))
      = Except.ok (todayMap today sessions)
    ∧ List.Sorted byName (getProjectsList sessions)
    ∧ (∀ (p : String) (d : Int),
        (p, d) ∈ getProjectsList sessions ↔
          (sessions.any (matchP p) = true ∧ d = specTotal sessions p))
    ∧ todayMap today sessions = projMap (sessions.filter (endsOnDay today))
    ∧ (∀ (p : String) (d : Int),
        (p, d) ∈ todayMap today sessions ↔
          ((sessions.filter (endsOnDay today)).any (matchP p) = true
            ∧ d = specTotal (sessions.filter (endsOnDay today)) p))
    ∧ (∀ (s : WorkSession) (rest : List WorkSession), s.tags = [] →
        getProjectsList (s :: rest) = getProjectsList rest
        ∧ todayMap today (s :: rest) = todayMap today rest) := by
  refine ⟨rfl, rfl, List.sorted_insertionSort byName _, ?_, ?_, ?_, ?_⟩
  · intro p d
    rw [getProjectsList,
      List.Perm.mem_iff (List.perm_insertionSort byName (projMap sessions))]
    exact mem_projMap_iff sessions p d
  · exact todayFold_eq today sessions []
  · intro p d
    rw [todayMap, todayFold_eq today sessions []]
    exact mem_projMap_iff _ p d
  · intro s rest h
    constructor
    · have hf : projFilter s = false := by simp [projFilter, h]
      simp [getProjectsList, projMap, List.foldl_cons, hf]
    · have ht : todayCond today s = false := by
        unfold todayCond
        cases he : s.end_time <;> simp [he, h]
      simp [todayMap, List.foldl_cons, ht]

/-- Closed instance of aggregation_spec: a session with no tags
contributes nothing to the project totals. -/
theorem aggregation_spec_witness :
    getProjectsList [wsA] = getProjectsList [] :=
  ((aggregation_spec [] 0).2.2.2.2.2.2 wsA [] rfl).1

end Netupi
